import Mathlib

/-!
Verification of the DayZ server-manager core against its specification.

The development shallowly embeds the three core components:
* the RCON client (`RCONManager` in the source): session state, request-id
  allocation, disconnect and socket-error teardown;
* the mod download queue (`ModQueue`): queue items, status accounting,
  clear operations, and the processing loop as a step relation;
* the server process supervisor (`ServerControl`): start/stop/status and the
  scheduled-restart registry.

JavaScript numbers are modelled as `Nat` with explicit wrap-around where the
source takes a modulus; `Math.round` on non-negative quotients is modelled as
exact half-up rational rounding (`jsRound`).  Fallible operations return
`Except` together with the post-state, since a JS `throw` leaves the mutated
object state in place.
-/

namespace DayZSM

/-! ## RCON client (source: RCONManager) -/

/-- Error kinds produced by the RCON client. -/
inductive RconError where
  | connectionError
  | commandTimeout
  | authTimeout
  | authFailed
  | connectionClosed
  deriving DecidableEq, Repr

/-- An observable callback invocation on a pending request's promise. -/
inductive RconEvent where
  | rejected (id : Nat) (e : RconError)
  | resolved (id : Nat) (resp : String)
  deriving DecidableEq, Repr

/-- Mutable state of `RCONManager`: socket presence, connected flag, the
request-id counter and the ids currently registered in `pendingRequests`. -/
structure RconState where
  socketOpen : Bool
  isConnected : Bool
  requestId : Nat
  pendingRequests : List Nat
  deriving DecidableEq, Repr

/-- `getNextRequestId`: `this.requestId = (this.requestId + 1) % 0xFFFFFFFF`,
returning the updated counter.  Note the modulus in the source is the literal
`0xFFFFFFFF = 2^32 - 1`. -/
def getNextRequestId (s : RconState) : Nat × RconState :=
  let r := (s.requestId + 1) % 0xFFFFFFFF
  (r, { s with requestId := r })

/-- `disconnect()`: closes the socket if open, clears the connected flag and
clears the pending-request map.  No callback is invoked: the returned event
list is empty. -/
def disconnect (s : RconState) : RconState × List RconEvent :=
  ({ s with socketOpen := false, isConnected := false, pendingRequests := [] }, [])

/-- The socket `error` handler: clears the connected flag and rejects every
pending request with a connection error, then clears the map. -/
def handleSocketError (s : RconState) : RconState × List RconEvent :=
  ({ s with isConnected := false, pendingRequests := [] },
   s.pendingRequests.map (fun id => RconEvent.rejected id RconError.connectionError))

/-- The 10-second per-command timeout closure created by `sendCommand`: it
deletes the stale entry and rejects that command's promise with a command
timeout.  It is cancelled only by the stored resolve/reject wrappers, which
`disconnect` never invokes. -/
def commandTimeoutFire (s : RconState) (id : Nat) : RconState × List RconEvent :=
  ({ s with pendingRequests := s.pendingRequests.erase id },
   [RconEvent.rejected id RconError.commandTimeout])

/-! ## Claims C1 and C4 -/

/-- C1 (counterexample): `disconnect()` on a session with two pending requests
invokes no callback at all — the pending entries are cleared without being
rejected, so the claim that each pending callback is rejected with a
connection-closed error fails already at this concrete state. -/
theorem disconnect_drops_pending_counterexample :
    (disconnect ⟨true, true, 7, [3, 9]⟩).2 = [] ∧
      (⟨true, true, 7, [3, 9]⟩ : RconState).pendingRequests ≠ [] ∧
      ¬ (∀ id ∈ (⟨true, true, 7, [3, 9]⟩ : RconState).pendingRequests,
          RconEvent.rejected id RconError.connectionClosed ∈
            (disconnect ⟨true, true, 7, [3, 9]⟩).2) := by
  refine ⟨rfl, by decide, ?_⟩
  intro h
  exact absurd (h 3 (by decide)) (by decide)

/-- C1 (amended): `disconnect()` closes the socket, clears the connected flag
and empties the pending map while invoking no pending callback; each dropped
request is only rejected later by its own 10-second command timeout, and it is
the socket *error* handler, not `disconnect`, that rejects every pending
request. -/
theorem disconnect_amended (s : RconState) :
    disconnect s = ({ s with socketOpen := false, isConnected := false,
                             pendingRequests := [] }, []) ∧
      (∀ id : Nat, (commandTimeoutFire s id).2 =
        [RconEvent.rejected id RconError.commandTimeout]) ∧
      (handleSocketError s).2 =
        s.pendingRequests.map (fun id => RconEvent.rejected id RconError.connectionError) := by
  exact ⟨rfl, fun _ => rfl, rfl⟩

/-- C4 (counterexample): at counter value `2^32 - 2` the source allocator
yields `(2^32 - 1) % (2^32 - 1) = 0`, not `(c + 1) % 2^32 = 2^32 - 1` as the
claim states. -/
theorem getNextRequestId_counterexample :
    (getNextRequestId ⟨true, true, 4294967294, []⟩).1 = 0 ∧
      (4294967294 + 1) % 2 ^ 32 = 4294967295 ∧
      (getNextRequestId ⟨true, true, 4294967294, []⟩).1 ≠ (4294967294 + 1) % 2 ^ 32 := by
  refine ⟨?_, by norm_num, ?_⟩ <;> decide

/-- C4 (amended): successive request ids increase by one wrapping modulo
`2^32 - 1` (the literal `0xFFFFFFFF` in the source): for every counter value
`c` the next allocated id equals `(c + 1) % (2^32 - 1)`, and the counter is
updated to that same value. -/
theorem getNextRequestId_amended (s : RconState) :
    (getNextRequestId s).1 = (s.requestId + 1) % (2 ^ 32 - 1) ∧
      (getNextRequestId s).2.requestId = (s.requestId + 1) % (2 ^ 32 - 1) := by
  constructor <;> rfl

/-! ## Mod download queue (source: ModQueue) -/

/-- Status values of a queue item: `'pending'`, `'downloading'`, `'completed'`
or `'failed'`. -/
inductive ModStatus where
  | pending
  | downloading
  | completed
  | failed
  deriving DecidableEq, Repr

/-- A queue item.  The generated `Date.now() + Math.random()` ids are modelled
by a fresh-counter discipline (see `MQState.nextId`). -/
structure QItem where
  id : Nat
  status : ModStatus
  progress : Nat
  error : Option String
  deriving DecidableEq, Repr

/-- Mutable state of `ModQueue`: the ordered item list, the `isProcessing`
flag, the id held by `currentItem`, and the id-generation counter. -/
structure MQState where
  queue : List QItem
  isProcessing : Bool
  currentItem : Option Nat
  nextId : Nat
  deriving DecidableEq, Repr

/-- The aggregate snapshot computed by `getQueueStatus`, recomputed from the
live list on every call. -/
structure QueueStatus where
  total : Nat
  pending : Nat
  downloading : Nat
  completed : Nat
  failed : Nat
  currentItem : Option Nat
  isProcessing : Bool
  deriving DecidableEq, Repr

/-- `getQueueStatus`: counts items per status by filtering the live list. -/
def getQueueStatus (s : MQState) : QueueStatus :=
  { total := s.queue.length
    pending := (s.queue.filter (fun it => it.status = ModStatus.pending)).length
    downloading := (s.queue.filter (fun it => it.status = ModStatus.downloading)).length
    completed := (s.queue.filter (fun it => it.status = ModStatus.completed)).length
    failed := (s.queue.filter (fun it => it.status = ModStatus.failed)).length
    currentItem := s.currentItem
    isProcessing := s.isProcessing }

/-- `clearCompleted`: keeps exactly the items whose status is neither
`'completed'` nor `'failed'` and returns the number of items dropped
(`before - after`). -/
def clearCompleted (s : MQState) : MQState × Nat :=
  let q := s.queue.filter
    (fun it => ¬ (it.status = ModStatus.completed) ∧ ¬ (it.status = ModStatus.failed))
  ({ s with queue := q }, s.queue.length - q.length)

/-! ## Claim C10 -/

/-- C10: `clearCompleted` removes every `failed` item as well as every
`completed` one, keeps every `pending` and `downloading` item (in place, in
order, as a sublist), and the returned count is exactly the number of
terminal (`completed` or `failed`) items; the operation is a total function
(it never throws). -/
theorem clearCompleted_correct (s : MQState) :
    (∀ it ∈ s.queue,
      (it.status = ModStatus.completed ∨ it.status = ModStatus.failed) →
        it ∉ (clearCompleted s).1.queue) ∧
    (∀ it ∈ s.queue,
      (it.status = ModStatus.pending ∨ it.status = ModStatus.downloading) →
        it ∈ (clearCompleted s).1.queue) ∧
    ((clearCompleted s).1.queue).Sublist s.queue ∧
    (clearCompleted s).2 =
      (s.queue.filter
        (fun it => it.status = ModStatus.completed ∨ it.status = ModStatus.failed)).length := by
  refine ⟨?_, ?_, ?_, ?_⟩
  · intro it _ hterm hmem
    have := (List.mem_filter.mp hmem).2
    rcases hterm with h | h <;> simp [h] at this
  · intro it hmem hst
    refine List.mem_filter.mpr ⟨hmem, ?_⟩
    rcases hst with h | h <;> simp [h]
  · exact List.filter_sublist s.queue
  · show s.queue.length - _ = _
    rw [← List.countP_eq_length_filter, ← List.countP_eq_length_filter]
    have hsplit := List.length_eq_countP_add_countP
      (fun it => decide (it.status = ModStatus.completed ∨ it.status = ModStatus.failed)) s.queue
    have hco : List.countP
        (fun it => decide (¬ (it.status = ModStatus.completed) ∧
          ¬ (it.status = ModStatus.failed))) s.queue =
        List.countP
          (fun it => !(decide (it.status = ModStatus.completed ∨
            it.status = ModStatus.failed))) s.queue := by
      apply List.countP_congr
      intro it _
      by_cases h1 : it.status = ModStatus.completed <;>
        by_cases h2 : it.status = ModStatus.failed <;> simp [h1, h2]
    have hnot : List.countP
        (fun it => !(decide (it.status = ModStatus.completed ∨
          it.status = ModStatus.failed))) s.queue =
        List.countP
          (fun it => decide ¬ (decide (it.status = ModStatus.completed ∨
            it.status = ModStatus.failed) = true)) s.queue := by
      apply List.countP_congr
      intro it _
      by_cases h : it.status = ModStatus.completed ∨ it.status = ModStatus.failed <;> simp [h]
    omega

/-- C10 witness: on a queue holding one `completed`, one `failed`, one
`pending` and one `downloading` item, `clearCompleted` keeps the `pending`
item and reports two removals. -/
theorem clearCompleted_correct_witness :
    (⟨2, ModStatus.pending, 0, none⟩ : QItem) ∈
      (clearCompleted ⟨[⟨0, ModStatus.completed, 100, none⟩,
        ⟨1, ModStatus.failed, 0, some "x"⟩, ⟨2, ModStatus.pending, 0, none⟩,
        ⟨3, ModStatus.downloading, 5, none⟩], true, some 3, 4⟩).1.queue ∧
    (clearCompleted ⟨[⟨0, ModStatus.completed, 100, none⟩,
      ⟨1, ModStatus.failed, 0, some "x"⟩, ⟨2, ModStatus.pending, 0, none⟩,
      ⟨3, ModStatus.downloading, 5, none⟩], true, some 3, 4⟩).2 = 2 := by
  have h := clearCompleted_correct ⟨[⟨0, ModStatus.completed, 100, none⟩,
    ⟨1, ModStatus.failed, 0, some "x"⟩, ⟨2, ModStatus.pending, 0, none⟩,
    ⟨3, ModStatus.downloading, 5, none⟩], true, some 3, 4⟩
  refine ⟨h.2.1 ⟨2, ModStatus.pending, 0, none⟩ (by simp) (Or.inl rfl), ?_⟩
  rw [h.2.2.2]
  decide

/-! ## Claim C6: terminal status of a collection item -/

/-- The terminal-status computation at the end of the collection branch of
`processQueue`: given the per-member success outcomes, zero failures yields
`completed` with no error note; otherwise the status is `failed` exactly when
every member failed, and the error field carries the summary string
`"S succeeded, F failed"`. -/
def collectionResult (outcomes : List Bool) : ModStatus × Option String :=
  let total := outcomes.length
  let successCount := outcomes.countP (fun b => b)
  let failCount := outcomes.countP (fun b => !b)
  if failCount = 0 then
    (ModStatus.completed, none)
  else
    ((if failCount = total then ModStatus.failed else ModStatus.completed),
     some (toString successCount ++ " succeeded, " ++ toString failCount ++ " failed"))

/-- C6: with `S` succeeded and `F` failed members out of `T > 0` in total
(`S + F = T`): `F = 0` gives terminal status `completed`; `F = T` gives
`failed`; `0 < F < T` gives `completed` with the summary error string
`"S succeeded, F failed"`. -/
theorem collectionResult_correct (outcomes : List Bool) (hT : 0 < outcomes.length) :
    outcomes.countP (fun b => b) + outcomes.countP (fun b => !b) = outcomes.length ∧
    (outcomes.countP (fun b => !b) = 0 →
      collectionResult outcomes = (ModStatus.completed, none)) ∧
    (outcomes.countP (fun b => !b) = outcomes.length →
      (collectionResult outcomes).1 = ModStatus.failed) ∧
    (0 < outcomes.countP (fun b => !b) → outcomes.countP (fun b => !b) < outcomes.length →
      collectionResult outcomes =
        (ModStatus.completed,
         some (toString (outcomes.countP (fun b => b)) ++ " succeeded, " ++
           toString (outcomes.countP (fun b => !b)) ++ " failed"))) := by
  have hsum : outcomes.countP (fun b => b) + outcomes.countP (fun b => !b) =
      outcomes.length := by
    have := List.length_eq_countP_add_countP (fun b : Bool => b) outcomes
    have hc : List.countP (fun a : Bool => decide ¬ (a = true)) outcomes =
        List.countP (fun b : Bool => !b) outcomes := by
      apply List.countP_congr
      intro b _
      cases b <;> simp
    omega
  refine ⟨hsum, ?_, ?_, ?_⟩
  · intro h0
    simp [collectionResult, h0]
  · intro hall
    have hne : outcomes.countP (fun b => !b) ≠ 0 := by omega
    have hnil : outcomes ≠ [] := by
      intro h
      rw [h] at hT
      simp at hT
    simp [collectionResult, hne, hall, hnil]
  · intro hpos hlt
    have hne : outcomes.countP (fun b => !b) ≠ 0 := by omega
    have hnt : ¬ (outcomes.countP (fun b => !b) = outcomes.length) := by omega
    simp [collectionResult, hne, hnt]

/-- C6 witness: outcomes `[true, false, true]` (member 2 of 3 fails) give
terminal status `completed` with error note `"2 succeeded, 1 failed"`. -/
theorem collectionResult_correct_witness :
    0 < ([true, false, true] : List Bool).length ∧
      collectionResult [true, false, true] =
        (ModStatus.completed, some "2 succeeded, 1 failed") := by
  refine ⟨by decide, ?_⟩
  have h := (collectionResult_correct [true, false, true] (by decide)).2.2.2
    (by decide) (by decide)
  exact h.trans (by decide)

/-! ## Claim C5: collection progress reporting -/

/-- `Math.round (num / den)` for non-negative operands: exact half-up
rounding of the quotient, modelled over the rationals as
`⌊num/den + 1/2⌋ = (2 * num + den) / (2 * den)` in natural division. -/
def jsRound (num den : Nat) : Nat :=
  (2 * num + den) / (2 * den)

/-- Modelled from the spec: the progress blend the spec describes for a
collection item, `(completed members / total) * 100` plus the in-flight
member's own sub-progress divided by `total`, rounded. -/
def specBlend (total done sub : Nat) : Nat :=
  jsRound (done * 100 + sub) total

/-- The progress values assigned and emitted while member `i` (0-based) of a
collection with `total` members is processed: the loop head first sets
`Math.round (((i + 1) / total) * 100)`, then the provider's progress callback
sets `Math.round ((i / total) * 100 + sub / total)` for each sub-progress
report `sub`. -/
def memberProgressTrace (total i : Nat) (subs : List Nat) : List Nat :=
  jsRound ((i + 1) * 100) total :: subs.map (fun p => jsRound (i * 100 + p) total)

/-- The full sequence of progress values reported while a collection item is
processed, given each member's sub-progress reports in order. -/
def collectionProgressTrace (subsPerMember : List (List Nat)) : List Nat :=
  subsPerMember.enum.flatMap
    (fun x => memberProgressTrace subsPerMember.length x.1 x.2)

/-- C5 (counterexample): a collection with one member whose download reports
sub-progress `50` yields the report sequence `[100, 50]`: the first value is
emitted with zero completed members and zero sub-progress yet equals `100`
(the spec blend there is `0`), and the sequence decreases, so it is not
monotonically non-decreasing. -/
theorem collectionProgress_counterexample :
    collectionProgressTrace [[50]] = [100, 50] ∧
      specBlend 1 0 0 = 0 ∧
      ¬ List.Chain' (fun a b => a ≤ b) (collectionProgressTrace [[50]]) := by
  refine ⟨rfl, rfl, ?_⟩
  have h : collectionProgressTrace [[50]] = [100, 50] := rfl
  rw [h]
  simp [List.chain'_cons]

/-- C5 (amended): every sub-progress report during member `i`'s download does
equal the spec blend `specBlend total i sub` with `i` completed members, but
the report emitted at the start of member `i` equals
`specBlend total (i + 1) 0` — it counts the member just starting as already
completed, so the sequence can decrease when the member's first sub-progress
arrives.  Each member's own sub-progress reports are monotone in the reported
sub-progress. -/
theorem collectionProgressTrace_amended (subsPerMember : List (List Nat)) :
    collectionProgressTrace subsPerMember =
      (List.range subsPerMember.length).flatMap
        (fun i => specBlend subsPerMember.length (i + 1) 0 ::
          ((subsPerMember.get? i).getD []).map
            (fun p => specBlend subsPerMember.length i p)) ∧
    (∀ i a b, a ≤ b →
      specBlend subsPerMember.length i a ≤ specBlend subsPerMember.length i b) := by
  constructor
  · rw [collectionProgressTrace, List.enum_eq_zip_range]
    have hzip : (List.range subsPerMember.length).zip subsPerMember =
        (List.range subsPerMember.length).map
          (fun i => (i, (subsPerMember.get? i).getD [])) := by
      apply List.ext_getElem
      · simp [List.length_zip]
      · intro n h1 h2
        have hn : n < subsPerMember.length := by
          simpa [List.length_zip] using h1
        simp [List.getElem_zip, List.getElem_range, List.get?_eq_getElem?,
          List.getElem?_eq_getElem hn]
    rw [hzip, List.flatMap_map]
    apply List.flatMap_congr
    intro x _
    rfl
  · intro i a b hab
    unfold specBlend jsRound
    have : 2 * (i * 100 + a) + subsPerMember.length ≤
        2 * (i * 100 + b) + subsPerMember.length := by omega
    exact Nat.div_le_div_right this

/-- C5 amended-theorem witness at the one-member collection `[[50]]`. -/
theorem collectionProgressTrace_amended_witness :
    collectionProgressTrace [[50]] =
      (List.range 1).flatMap
        (fun i => specBlend 1 (i + 1) 0 ::
          ((([[50]] : List (List Nat)).get? i).getD []).map
            (fun p => specBlend 1 i p)) ∧
      specBlend 1 0 10 ≤ specBlend 1 0 60 :=
  ⟨(collectionProgressTrace_amended [[50]]).1,
   (collectionProgressTrace_amended [[50]]).2 0 10 60 (by decide)⟩

/-! ## Claim C9: the processing loop as a state machine

The loop body of `processQueue` mutates the single found item object; since
generated item ids are unique, the mutation is modelled as an id-keyed
update.  One step of the machine is one atomic segment of the source between
suspension points. -/

/-- Set the status of the item carrying the given id (the loop's
`item.status = 'downloading'` assignment on the found object). -/
def markStatusById (q : List QItem) (i : Nat) (st : ModStatus) : List QItem :=
  q.map (fun it => if it.id = i then { it with status := st } else it)

/-- Final per-item update of the loop body: terminal status, final progress
and error note for the current item. -/
def finishItemById (q : List QItem) (i : Nat) (st : ModStatus) (prog : Nat)
    (err : Option String) : List QItem :=
  q.map (fun it =>
    if it.id = i then { it with status := st, progress := prog, error := err } else it)

/-- One atomic step of the mod queue: the public mutators (`addToQueue`,
`removeFromQueue`, `clearCompleted`, `clearAll`) and the segments of
`processQueue` between its `await` suspension points. -/
inductive MQStep : MQState → MQState → Prop where
  | enqueue (s : MQState) :
      MQStep s { s with
        queue := s.queue ++ [⟨s.nextId, ModStatus.pending, 0, none⟩],
        nextId := s.nextId + 1 }
  | beginProcess (s : MQState) (h : s.isProcessing = false) :
      MQStep s { s with isProcessing := true }
  | pickItem (s : MQState) (it : QItem)
      (hp : s.isProcessing = true) (hc : s.currentItem = none)
      (hfind : s.queue.find? (fun x => x.status = ModStatus.pending) = some it) :
      MQStep s { s with
        queue := markStatusById s.queue it.id ModStatus.downloading,
        currentItem := some it.id }
  | finishItem (s : MQState) (i prog : Nat) (st : ModStatus) (err : Option String)
      (hp : s.isProcessing = true) (hc : s.currentItem = some i)
      (hterm : st = ModStatus.completed ∨ st = ModStatus.failed) :
      MQStep s { s with
        queue := finishItemById s.queue i st prog err,
        currentItem := none }
  | endProcess (s : MQState) (hp : s.isProcessing = true) (hc : s.currentItem = none) :
      MQStep s { s with isProcessing := false }
  | removeItem (s : MQState) (i : Nat) (it : QItem)
      (hfind : s.queue.find? (fun x => x.id = i) = some it)
      (hdl : it.status ≠ ModStatus.downloading) :
      MQStep s { s with queue := s.queue.eraseP (fun x => x.id = i) }
  | clearCompletedStep (s : MQState) :
      MQStep s (clearCompleted s).1
  | clearAllStep (s : MQState) (h : s.isProcessing = false) :
      MQStep s { s with queue := [] }

/-- Queue states reachable from the freshly constructed `ModQueue`. -/
inductive MQReachable : MQState → Prop where
  | init : MQReachable ⟨[], false, none, 0⟩
  | step {s t : MQState} : MQReachable s → MQStep s t → MQReachable t

/-- The inductive invariant: ids are below the fresh counter and pairwise
distinct, and every `downloading` item is the one `currentItem` points at. -/
def MQInv (s : MQState) : Prop :=
  (∀ it ∈ s.queue, it.id < s.nextId) ∧
  s.queue.Pairwise (fun a b => a.id ≠ b.id) ∧
  (∀ it ∈ s.queue, it.status = ModStatus.downloading → s.currentItem = some it.id)

theorem pairwise_ids_map {q : List QItem} {f : QItem → QItem}
    (hf : ∀ it, (f it).id = it.id)
    (h : q.Pairwise (fun a b => a.id ≠ b.id)) :
    (q.map f).Pairwise (fun a b => a.id ≠ b.id) := by
  rw [List.pairwise_map]
  refine h.imp ?_
  intro a b hab
  rw [hf, hf]
  exact hab

theorem mem_map_of_id_preserving {q : List QItem} {f : QItem → QItem}
    (hf : ∀ it, (f it).id = it.id) :
    ∀ it' ∈ q.map f, ∃ it0 ∈ q, it' = f it0 ∧ it'.id = it0.id := by
  intro it' h
  rcases List.mem_map.mp h with ⟨it0, h0, rfl⟩
  exact ⟨it0, h0, rfl, hf it0⟩

theorem mq_inv_step {s t : MQState} (hstep : MQStep s t) (hinv : MQInv s) : MQInv t := by
  obtain ⟨hbound, hpair, hdl⟩ := hinv
  cases hstep with
  | enqueue =>
      refine ⟨?_, ?_, ?_⟩
      · intro it hmem
        rcases List.mem_append.mp hmem with h | h
        · exact Nat.lt_succ_of_lt (hbound it h)
        · simp only [List.mem_singleton] at h
          rw [h]
          exact Nat.lt_succ_self _
      · refine List.pairwise_append.mpr ⟨hpair, List.pairwise_singleton _ _, ?_⟩
        intro a ha b hb
        simp only [List.mem_singleton] at hb
        rw [hb]
        exact Nat.ne_of_lt (hbound a ha)
      · intro it hmem hst
        rcases List.mem_append.mp hmem with h | h
        · exact hdl it h hst
        · simp only [List.mem_singleton] at h
          rw [h] at hst
          simp at hst
  | beginProcess h =>
      exact ⟨hbound, hpair, hdl⟩
  | pickItem it hp hc hfind =>
      have hnone : ∀ a ∈ s.queue, a.status ≠ ModStatus.downloading := by
        intro a ha hsta
        have := hdl a ha hsta
        rw [hc] at this
        exact Option.noConfusion this
      have hidf : ∀ a : QItem,
          ((fun x => if x.id = it.id then { x with status := ModStatus.downloading }
            else x) a).id = a.id := by
        intro a
        by_cases h : a.id = it.id <;> simp [h]
      refine ⟨?_, pairwise_ids_map hidf hpair, ?_⟩
      · intro a ha
        rcases mem_map_of_id_preserving hidf a ha with ⟨a0, h0, _, hid⟩
        rw [hid]
        exact hbound a0 h0
      · intro a ha hsta
        rcases mem_map_of_id_preserving hidf a ha with ⟨a0, h0, heq, hid⟩
        by_cases hcase : a0.id = it.id
        · show some it.id = some a.id
          rw [hid, hcase]
        · rw [heq] at hsta ⊢
          simp only [hcase, if_neg, ite_false] at hsta
          exact absurd hsta (hnone a0 h0)
  | finishItem i prog st err hp hc hterm =>
      have hst_ne : st ≠ ModStatus.downloading := by
        rcases hterm with h | h <;> rw [h] <;> intro hcontr <;> exact ModStatus.noConfusion hcontr
      have hidf : ∀ a : QItem,
          ((fun x => if x.id = i then { x with status := st, progress := prog, error := err }
            else x) a).id = a.id := by
        intro a
        by_cases h : a.id = i <;> simp [h]
      refine ⟨?_, pairwise_ids_map hidf hpair, ?_⟩
      · intro a ha
        rcases mem_map_of_id_preserving hidf a ha with ⟨a0, h0, _, hid⟩
        rw [hid]
        exact hbound a0 h0
      · intro a ha hsta
        rcases mem_map_of_id_preserving hidf a ha with ⟨a0, h0, heq, _⟩
        by_cases hcase : a0.id = i
        · rw [heq] at hsta
          simp only [hcase, if_pos, ite_true] at hsta
          exact absurd hsta hst_ne
        · rw [heq] at hsta
          simp only [hcase, if_neg, ite_false] at hsta
          have := hdl a0 h0 hsta
          rw [hc] at this
          have : i = a0.id := by
            injection this
          exact absurd this.symm hcase
  | endProcess hp hc =>
      exact ⟨hbound, hpair, hdl⟩
  | removeItem i it hfind hdl' =>
      have hsub : (s.queue.eraseP (fun x => x.id = i)).Sublist s.queue :=
        List.eraseP_sublist s.queue
      refine ⟨?_, hpair.sublist hsub, ?_⟩
      · intro a ha
        exact hbound a (hsub.mem ha)
      · intro a ha hsta
        exact hdl a (hsub.mem ha) hsta
  | clearCompletedStep =>
      have hsub : ((clearCompleted s).1.queue).Sublist s.queue :=
        List.filter_sublist s.queue
      refine ⟨?_, hpair.sublist hsub, ?_⟩
      · intro a ha
        exact hbound a (hsub.mem ha)
      · intro a ha hsta
        exact hdl a (hsub.mem ha) hsta
  | clearAllStep h =>
      exact ⟨by simp, by simp, by simp⟩

theorem mq_inv_reachable {s : MQState} (h : MQReachable s) : MQInv s := by
  induction h with
  | init => exact ⟨by simp, by simp, by simp⟩
  | step _ hstep ih => exact mq_inv_step hstep ih

theorem mem_id_inj {q : List QItem}
    (hpair : q.Pairwise (fun a b => a.id ≠ b.id)) :
    ∀ a ∈ q, ∀ b ∈ q, a.id = b.id → a = b := by
  induction q with
  | nil => simp
  | cons hd tl ih =>
      rcases List.pairwise_cons.mp hpair with ⟨hhd, htl⟩
      intro a ha b hb heq
      rcases List.mem_cons.mp ha with rfl | ha' <;>
        rcases List.mem_cons.mp hb with rfl | hb'
      · rfl
      · exact absurd heq (hhd b hb')
      · exact absurd heq.symm (hhd a ha')
      · exact ih htl a ha' b hb' heq

theorem count_downloading_le_one {q : List QItem} {c : Option Nat}
    (hpair : q.Pairwise (fun a b => a.id ≠ b.id))
    (h3 : ∀ it ∈ q, it.status = ModStatus.downloading → c = some it.id) :
    (q.filter (fun it => it.status = ModStatus.downloading)).length ≤ 1 := by
  induction q with
  | nil => simp
  | cons hd tl ih =>
      rcases List.pairwise_cons.mp hpair with ⟨hhd, htl⟩
      by_cases hdl : hd.status = ModStatus.downloading
      · have hc : c = some hd.id := h3 hd (List.mem_cons_self hd tl) hdl
        have htl_nil : tl.filter (fun it => it.status = ModStatus.downloading) = [] := by
          rw [List.filter_eq_nil_iff]
          intro a ha hconta
          have hsta : a.status = ModStatus.downloading := by simpa using hconta
          have hca : c = some a.id := h3 a (List.mem_cons_of_mem hd ha) hsta
          rw [hc] at hca
          have : hd.id = a.id := by injection hca
          exact hhd a ha this
        rw [List.filter_cons_of_pos (by simpa using hdl), htl_nil]
        simp
      · rw [List.filter_cons_of_neg (by simpa using hdl)]
        exact ih htl (fun a ha => h3 a (List.mem_cons_of_mem hd ha))

/-- C9: in every reachable queue state, any two `downloading` items coincide
(at most one item is `downloading`), and every `getQueueStatus` snapshot
reports a downloading count of at most 1. -/
theorem modQueue_at_most_one_downloading (s : MQState) (h : MQReachable s) :
    (∀ it1 ∈ s.queue, ∀ it2 ∈ s.queue,
      it1.status = ModStatus.downloading → it2.status = ModStatus.downloading →
        it1 = it2) ∧
    (getQueueStatus s).downloading ≤ 1 := by
  obtain ⟨_, hpair, h3⟩ := mq_inv_reachable h
  constructor
  · intro it1 h1 it2 h2 hs1 hs2
    have e1 := h3 it1 h1 hs1
    have e2 := h3 it2 h2 hs2
    rw [e1] at e2
    have : it1.id = it2.id := by injection e2
    exact mem_id_inj hpair it1 h1 it2 h2 this
  · exact count_downloading_le_one hpair h3

/-- C9 witness: the state reached by enqueueing one mod, entering the
processing loop and picking the item (so exactly one item is `downloading`)
satisfies the bound. -/
theorem modQueue_at_most_one_downloading_witness :
    (getQueueStatus ⟨[⟨0, ModStatus.downloading, 0, none⟩], true, some 0, 1⟩).downloading ≤ 1 := by
  have h0 : MQReachable ⟨[], false, none, 0⟩ := MQReachable.init
  have h1 : MQReachable ⟨[⟨0, ModStatus.pending, 0, none⟩], false, none, 1⟩ :=
    h0.step (MQStep.enqueue _)
  have h2 : MQReachable ⟨[⟨0, ModStatus.pending, 0, none⟩], true, none, 1⟩ :=
    h1.step (MQStep.beginProcess _ rfl)
  have h3 : MQReachable ⟨[⟨0, ModStatus.downloading, 0, none⟩], true, some 0, 1⟩ :=
    h2.step (MQStep.pickItem _ ⟨0, ModStatus.pending, 0, none⟩ rfl rfl rfl)
  exact (modQueue_at_most_one_downloading _ h3).2

/-! ## Server process supervisor (source: ServerControl) -/

/-- A child-process handle as `startServer` observes it after the grace
delay: the assigned pid (if any) and the `killed` flag. -/
structure ProcHandle where
  pid : Option Nat
  killed : Bool
  deriving DecidableEq, Repr

/-- A scheduled-restart registry entry. -/
structure SchedEntry where
  id : Nat
  time : Nat
  serverPath : String
  profileName : String
  executed : Bool
  deriving DecidableEq, Repr

/-- Mutable state of `ServerControl`. -/
structure SCState where
  serverProcess : Option ProcHandle
  serverPath : Option String
  isRunning : Bool
  monitoring : Bool
  scheduledRestarts : List SchedEntry
  deriving DecidableEq, Repr

/-- The environment a single `startServer` invocation observes: whether the
install path and the resolved executable exist, and how the spawn turns out
within the 500 ms grace window (asynchronous spawn error, immediate kill,
assigned pid). -/
structure StartEnv where
  pathExists : Bool
  exeExists : Bool
  spawnError : Bool
  spawnKilled : Bool
  spawnPid : Option Nat
  deriving DecidableEq, Repr

/-- The typed failures of `startServer`. -/
inductive StartErr where
  | alreadyRunning
  | processExists
  | pathNotFound
  | execNotFound
  | spawnFailed
  | killedImmediately
  | noPid
  deriving DecidableEq, Repr

/-- The `this.serverProcess && this.serverProcess.pid` guard. -/
def hasLivePid : Option ProcHandle → Bool
  | some h => h.pid.isSome
  | none => false

/-- The catch block of `startServer`: clears the running flag, best-effort
kills any partially-spawned process and nulls the handle, then rethrows. -/
def startFail (e : StartErr) (s : SCState) : Except StartErr Nat × SCState :=
  (Except.error e, { s with isRunning := false, serverProcess := none })

/-- `startServer`: the two already-running guards, then the try block — path
check, executable check, spawn, 500 ms grace window (an asynchronous spawn
error nulls the handle and is then observed), killed/pid checks — with every
thrown error routed through the catch block, and on success the handle kept,
the path recorded, the running flag set and monitoring started.  Returns the
result together with the post-call state. -/
def startServer (s : SCState) (env : StartEnv) (serverPath profileName : String) :
    Except StartErr Nat × SCState :=
  if s.isRunning then
    (Except.error StartErr.alreadyRunning, s)
  else if hasLivePid s.serverProcess then
    (Except.error StartErr.processExists, s)
  else if env.pathExists = false then
    startFail StartErr.pathNotFound s
  else if env.exeExists = false then
    startFail StartErr.execNotFound s
  else if env.spawnError then
    startFail StartErr.spawnFailed { s with isRunning := false, serverProcess := none }
  else
    let afterSpawn : SCState :=
      { s with serverProcess := some ⟨env.spawnPid, env.spawnKilled⟩ }
    if env.spawnKilled then
      startFail StartErr.killedImmediately afterSpawn
    else
      match env.spawnPid with
      | none => startFail StartErr.noPid afterSpawn
      | some pid =>
          (Except.ok pid,
           { afterSpawn with serverPath := some serverPath, isRunning := true,
                             monitoring := true })

/-- The status snapshot of `getServerStatus`. -/
structure ServerStatus where
  isRunning : Bool
  pid : Option Nat
  deriving DecidableEq, Repr

/-- `getServerStatus`: pure read of the running flag and the handle's pid. -/
def getServerStatus (s : SCState) : ServerStatus :=
  { isRunning := s.isRunning
    pid := s.serverProcess.bind (fun h => h.pid) }

/-- Signals the supervisor can send on the non-Windows stop path. -/
inductive KillSig where
  | sigterm
  | sigkill
  deriving DecidableEq, Repr

/-- A kill issued to a process. -/
structure KillAction where
  sig : KillSig
  pid : Option Nat
  deriving DecidableEq, Repr

/-- `stopServer` failure. -/
inductive StopErr where
  | notRunning
  deriving DecidableEq, Repr

/-- `stopServer` (non-Windows path): fails with `NotRunning` when no live
handle; otherwise stops monitoring, sends SIGTERM to the handle, schedules
the 5-second SIGKILL timer, and — synchronously, before that timer can
fire — clears the running flag and nulls `this.serverProcess`. -/
def stopServer (s : SCState) : Except StopErr Unit × SCState × List KillAction :=
  if s.isRunning = false ∨ s.serverProcess = none then
    (Except.error StopErr.notRunning, s, [])
  else
    (Except.ok (),
     { s with isRunning := false, serverProcess := none, monitoring := false },
     [⟨KillSig.sigterm, s.serverProcess.bind (fun h => h.pid)⟩])

/-- The 5-second timer callback scheduled by `stopServer`: it re-reads
`this.serverProcess` at fire time and sends SIGKILL only if a non-killed
handle is still installed there. -/
def sigkillTimerFire (s : SCState) : List KillAction :=
  match s.serverProcess with
  | some h => if h.killed = false then [⟨KillSig.sigkill, h.pid⟩] else []
  | none => []

/-! ## Claims C8, C2, C3 -/

/-- C8: a `start` call while the server is already running fails with
`AlreadyRunning` and returns the state unchanged — the handle, its pid, the
running flag and the install path are all identical before and after. -/
theorem startServer_alreadyRunning (s : SCState) (env : StartEnv)
    (p n : String) (h : s.isRunning = true) :
    startServer s env p n = (Except.error StartErr.alreadyRunning, s) := by
  simp [startServer, h]

/-- C8 witness: a concrete running state is returned untouched. -/
theorem startServer_alreadyRunning_witness :
    startServer ⟨some ⟨some 42, false⟩, some "sp", true, true, []⟩
        ⟨true, true, false, false, some 7⟩ "sp" "prof" =
      (Except.error StartErr.alreadyRunning,
       ⟨some ⟨some 42, false⟩, some "sp", true, true, []⟩) :=
  startServer_alreadyRunning _ _ _ _ rfl

/-- C2 (counterexample): a failing `start` after which `getStatus().running`
is *not* false — when `start` fails with `AlreadyRunning`, the running flag
stays `true`, so the claim's "for every failed start" is too strong. -/
theorem startServer_failure_running_counterexample :
    (startServer ⟨some ⟨some 42, false⟩, some "sp", true, true, []⟩
        ⟨true, true, false, false, some 7⟩ "sp" "prof").1 =
      Except.error StartErr.alreadyRunning ∧
    (getServerStatus (startServer ⟨some ⟨some 42, false⟩, some "sp", true, true, []⟩
        ⟨true, true, false, false, some 7⟩ "sp" "prof").2).isRunning = true := by
  constructor <;> rfl

/-- A start environment in which the install path and executable exist, the
spawn raises no asynchronous error, the process is not killed immediately and
a pid is assigned. -/
def validStartEnv (env : StartEnv) : Prop :=
  env.pathExists = true ∧ env.exeExists = true ∧ env.spawnError = false ∧
    env.spawnKilled = false ∧ env.spawnPid.isSome = true

/-- Every failing `start` that gets past the two already-running guards
leaves a clean post-state. -/
theorem startServer_fail_clean (s : SCState) (env : StartEnv) (p n : String)
    (h1 : s.isRunning = false) (h2 : hasLivePid s.serverProcess = false)
    (e : StartErr) (hf : (startServer s env p n).1 = Except.error e) :
    (startServer s env p n).2.isRunning = false ∧
      (startServer s env p n).2.serverProcess = none := by
  cases hpath : env.pathExists with
  | false => simp [startServer, h1, h2, hpath, startFail]
  | true =>
  cases hexe : env.exeExists with
  | false => simp [startServer, h1, h2, hpath, hexe, startFail]
  | true =>
  cases hspawn : env.spawnError with
  | true => simp [startServer, h1, h2, hpath, hexe, hspawn, startFail]
  | false =>
  cases hkilled : env.spawnKilled with
  | true => simp [startServer, h1, h2, hpath, hexe, hspawn, hkilled, startFail]
  | false =>
  cases hpid : env.spawnPid with
  | none => simp [startServer, h1, h2, hpath, hexe, hspawn, hkilled, hpid, startFail]
  | some pid =>
      exfalso
      rw [startServer] at hf
      simp [h1, h2, hpath, hexe, hspawn, hkilled, hpid, startFail] at hf

/-- A `start` from a clean state under a valid environment succeeds. -/
theorem startServer_valid_ok (s : SCState) (env : StartEnv) (p n : String)
    (h1 : s.isRunning = false) (h2 : s.serverProcess = none)
    (henv : validStartEnv env) :
    ∃ pid, (startServer s env p n).1 = Except.ok pid := by
  obtain ⟨hpath, hexe, hspawn, hkilled, hpid⟩ := henv
  cases hp : env.spawnPid with
  | none => rw [hp] at hpid; simp at hpid
  | some pid =>
      refine ⟨pid, ?_⟩
      unfold startServer
      simp [h1, h2, hasLivePid, hpath, hexe, hspawn, hkilled, hp]

/-- C2 (amended): for every `start` invocation that fails *after passing the
two already-running guards* (the guard failures leave the state untouched by
design), the post-state has `getStatus().running = false` and a cleared
handle, and a subsequent `start` from that post-state with valid inputs
succeeds. -/
theorem startServer_failure_resets (s : SCState) (env : StartEnv) (p n : String)
    (h1 : s.isRunning = false) (h2 : hasLivePid s.serverProcess = false)
    (e : StartErr) (hf : (startServer s env p n).1 = Except.error e) :
    (getServerStatus (startServer s env p n).2).isRunning = false ∧
      (startServer s env p n).2.serverProcess = none ∧
      ∀ (env2 : StartEnv) (p2 n2 : String), validStartEnv env2 →
        ∃ pid, (startServer (startServer s env p n).2 env2 p2 n2).1 = Except.ok pid := by
  obtain ⟨hrun, hproc⟩ := startServer_fail_clean s env p n h1 h2 e hf
  refine ⟨?_, hproc, ?_⟩
  · simp [getServerStatus, hrun]
  · intro env2 p2 n2 henv2
    exact startServer_valid_ok _ env2 p2 n2 hrun hproc henv2

/-- C2 amended-theorem witness: from a clean state, a `start` whose install
path is missing fails, the post-state reads not-running, and a retry with a
valid environment succeeds. -/
theorem startServer_failure_resets_witness :
    (getServerStatus (startServer ⟨none, none, false, false, []⟩
        ⟨false, true, false, false, some 7⟩ "sp" "prof").2).isRunning = false ∧
      (startServer (startServer ⟨none, none, false, false, []⟩
          ⟨false, true, false, false, some 7⟩ "sp" "prof").2
        ⟨true, true, false, false, some 7⟩ "sp" "prof").1 = Except.ok 7 := by
  have h := startServer_failure_resets ⟨none, none, false, false, []⟩
    ⟨false, true, false, false, some 7⟩ "sp" "prof" rfl rfl
    StartErr.pathNotFound rfl
  refine ⟨h.1, ?_⟩
  rfl

/-- C3 (code bug): on the non-Windows path, `stopServer` on a running server
with live pid 42 sends only SIGTERM; because it nulls `this.serverProcess`
synchronously before returning, the 5-second escalation timer — which
re-reads `this.serverProcess` — finds `null` at fire time and sends no
SIGKILL at all, even though the original process may still be alive.  The
claimed SIGTERM→SIGKILL escalation can never fire for the stopped process. -/
theorem stopServer_sigkill_never_fires :
    (stopServer ⟨some ⟨some 42, false⟩, some "sp", true, true, []⟩).2.2 =
      [⟨KillSig.sigterm, some 42⟩] ∧
    (stopServer ⟨some ⟨some 42, false⟩, some "sp", true, true, []⟩).2.1.serverProcess =
      none ∧
    sigkillTimerFire (stopServer ⟨some ⟨some 42, false⟩, some "sp", true, true, []⟩).2.1 =
      [] := by
  refine ⟨rfl, rfl, rfl⟩

/-! ## Claim C7: scheduled restarts -/

/-- The per-entry body of `checkScheduledRestarts`: a non-executed entry whose
trigger time has passed (`new Date(restart.time) <= now`) is marked executed,
and the restart is performed exactly when the server is currently running.
Returns the updated entry and whether a restart was performed for it. -/
def checkEntry (running : Bool) (now : Nat) (e : SchedEntry) : SchedEntry × Bool :=
  if e.executed = false ∧ e.time ≤ now then
    ({ e with executed := true }, running)
  else
    (e, false)

/-- `checkScheduledRestarts`: applies `checkEntry` to every registry entry;
returns the updated registry together with the entries for which a restart
was performed.  (The loop awaits each performed restart; restarts are assumed
to succeed, leaving the running flag unchanged across the call.) -/
def checkScheduledRestarts (running : Bool) (now : Nat) (es : List SchedEntry) :
    List SchedEntry × List SchedEntry :=
  (es.map (fun e => (checkEntry running now e).1),
   es.filter (fun e => (checkEntry running now e).2))

/-- C7: for every registry entry `e` with trigger time `T = e.time`:
a poll strictly before `T` leaves the entry unexecuted and performs nothing;
a poll at or after `T` marks it executed and performs the restart exactly when
the server is running (so an entry coming due while the server is stopped is
marked executed and no restart — hence no start — is performed); an already
executed entry is never executed or restarted again, so a second poll at or
after `T` is a no-op for it. -/
theorem checkScheduledRestarts_correct (running : Bool) (now now2 : Nat)
    (es : List SchedEntry) :
    (checkScheduledRestarts running now es).1 =
        es.map (fun e => (checkEntry running now e).1) ∧
    (∀ e ∈ es, e.executed = false → now < e.time →
        checkEntry running now e = (e, false)) ∧
    (∀ e ∈ es, e.executed = false → e.time ≤ now →
        (checkEntry running now e).1.executed = true ∧
          (checkEntry running now e).2 = running) ∧
    (∀ e ∈ es, e.time ≤ now →
        ∀ running2 : Bool,
          checkEntry running2 now2 (checkEntry running now e).1 =
            ((checkEntry running now e).1, false) ∨ e.executed = false ∧ now < e.time) ∧
    (running = false → (checkScheduledRestarts false now es).2 = []) := by
  refine ⟨rfl, ?_, ?_, ?_, ?_⟩
  · intro e _ hex ht
    have : ¬ (e.executed = false ∧ e.time ≤ now) := by
      intro hcontr
      omega
    simp [checkEntry, this]
  · intro e _ hex ht
    simp [checkEntry, hex, ht]
  · intro e _ ht running2
    cases hex : e.executed with
    | false =>
        left
        have h1 : checkEntry running now e = ({ e with executed := true }, running) := by
          simp [checkEntry, hex, ht]
        rw [h1]
        simp [checkEntry]
    | true =>
        left
        have h1 : checkEntry running now e = (e, false) := by
          simp [checkEntry, hex]
        rw [h1]
        simp [checkEntry, hex]
  · intro hstop
    rw [checkScheduledRestarts, List.filter_eq_nil_iff]
    intro e _
    cases hex : e.executed with
    | false =>
        by_cases ht : e.time ≤ now
        · simp [checkEntry, hex, ht]
        · simp [checkEntry, hex, ht]
    | true => simp [checkEntry, hex]

/-- C7 witness: a pending entry with trigger time 100 is untouched by a poll
at 99, marked executed (with a restart performed) by a poll at 101 while
running, is not executed again by a second poll at 101, and a poll at 101
while stopped performs no restart. -/
theorem checkScheduledRestarts_correct_witness :
    checkEntry true 99 ⟨1, 100, "sp", "prof", false⟩ =
        (⟨1, 100, "sp", "prof", false⟩, false) ∧
      (checkEntry true 101 ⟨1, 100, "sp", "prof", false⟩).1.executed = true ∧
      (checkEntry true 101 ⟨1, 100, "sp", "prof", false⟩).2 = true ∧
      checkEntry true 101 (checkEntry true 101 ⟨1, 100, "sp", "prof", false⟩).1 =
        ((checkEntry true 101 ⟨1, 100, "sp", "prof", false⟩).1, false) ∧
      (checkScheduledRestarts false 101 [⟨1, 100, "sp", "prof", false⟩]).2 = [] := by
  have h99 := checkScheduledRestarts_correct true 99 101 [⟨1, 100, "sp", "prof", false⟩]
  have h101 := checkScheduledRestarts_correct true 101 101 [⟨1, 100, "sp", "prof", false⟩]
  have hstop := checkScheduledRestarts_correct false 101 101 [⟨1, 100, "sp", "prof", false⟩]
  have hmem : (⟨1, 100, "sp", "prof", false⟩ : SchedEntry) ∈
      [(⟨1, 100, "sp", "prof", false⟩ : SchedEntry)] := by simp
  have hdue := h101.2.2.1 _ hmem rfl (by decide)
  have hsecond := h101.2.2.2.1 _ hmem (by decide) true
  refine ⟨h99.2.1 _ hmem rfl (by decide), hdue.1, hdue.2, ?_, hstop.2.2.2.2 rfl⟩
  rcases hsecond with h | h
  · exact h
  · exact absurd h.2 (by decide)

end DayZSM
